import Mathlib

/-!
Shallow embedding of the reminder scheduling, recurrence, and persistence
engine of calcbot-rs (src/timer.rs, src/commands/remind/*, src/database/*).

Times and durations are modelled as natural numbers of nanoseconds.
Rust `SystemTime::duration_since(..).unwrap_or_default()` clamps a negative
difference to zero, which is exactly truncated subtraction on Nat.

The recurrence catch-up computation in the source (timer.rs, Timer::create_task)
is performed in f64 seconds via as_secs_f64, floor, and from_secs_f64; it is
modelled here in exact arithmetic over nanoseconds. For exact real values,
the floor of the quotient of the two second counts equals natural division
of the nanosecond counts, so the exact-arithmetic image of the computation
is the definition recurNext below.
-/

namespace Calcbot

/-- An instant or duration in nanoseconds. -/
abbrev Time := Nat

/-- A Discord user id (Id of UserMarker in the source). -/
abbrev UserId := Nat

/-- State of a timer (timer.rs, enum TimerState). -/
inductive TimerState where
  /-- The timer is running and will end at the given system time. -/
  | running (end_time : Time) : TimerState
  /-- The timer is paused with the given amount of time remaining. -/
  | paused (remaining : Time) : TimerState
deriving DecidableEq

/-- Returns true on the running variant (used by Timer::is_running and by
the early return of Timer::create_task). -/
def TimerState.isRunning : TimerState → Bool
  | .running _ => true
  | .paused _ => false

/-- A timer set by a user (timer.rs, struct Timer).

The `task` field models the JoinHandle of the spawned wait task; it carries
the numeric handle of the live wait-task registered for this timer, and it
is skipped by serde (never persisted).

The field `subscribed_users` is Modelled from the spec: timer.rs in this
snapshot does not declare the subscriber set, but action.rs and
toggle_shared.rs read `timer.subscribed_users`; per the spec (section 3) it
is the set of user ids who additionally receive the notification. -/
structure Timer where
  id : String
  user_id : UserId
  channel_id : Nat
  state : TimerState
  recur : Option Time
  message : String
  subscribed_users : List UserId
  task : Option Nat
deriving DecidableEq

/-- Timer::running (timer.rs lines 81 to 96): a fresh one-shot running timer.
The id is produced in the source by random_string::generate(4, ALPHA_LOWER),
an external source of randomness; it is taken here as a parameter. -/
def Timer.running (id : String) (user_id channel_id : Nat) (end_time : Time)
    (message : String) : Timer :=
  ⟨id, user_id, channel_id, .running end_time, none, message, [], none⟩

/-- Timer::is_running (timer.rs lines 101 to 103). -/
def Timer.is_running (t : Timer) : Bool :=
  t.state.isRunning

/-- Timer::pause (timer.rs lines 107 to 116): a running timer becomes paused
with remaining clamped at zero; the wait task is taken and aborted, so the
handle field becomes none. The abort of the live task itself is bookkept at
the Db level by the callers. -/
def Timer.pause (t : Timer) (now : Time) : Timer :=
  { t with
    state := match t.state with
      | .running e => .paused (e - now)
      | .paused r => .paused r,
    task := none }

/-- Timer::resume (timer.rs lines 122 to 131): a paused timer becomes running
ending `remaining` after now; the wait task is taken and aborted. -/
def Timer.resume (t : Timer) (now : Time) : Timer :=
  { t with
    state := match t.state with
      | .paused r => .running (now + r)
      | .running e => .running e,
    task := none }

/-- Timer::set_new_duration (timer.rs lines 137 to 147). The task handle is
not touched by this function. -/
def Timer.set_new_duration (t : Timer) (now d : Time) : Timer :=
  { t with
    state := match t.state with
      | .running _ => .running (now + d)
      | .paused _ => .paused d }

/-- Timer::set_new_end_time (timer.rs lines 154 to 163): on a paused timer,
duration_since errors when the new end time is before now, in which case the
old remaining is kept (unwrap_or). -/
def Timer.set_new_end_time (t : Timer) (new_end now : Time) : Timer :=
  { t with
    state := match t.state with
      | .running _ => .running new_end
      | .paused r => .paused (if now ≤ new_end then new_end - now else r) }

/-- The AddAssign impl for Timer (timer.rs lines 318 to 329): shifts the end
time of a running timer, or the remaining time of a paused one. -/
def Timer.addDur (t : Timer) (d : Time) : Timer :=
  { t with
    state := match t.state with
      | .running e => .running (e + d)
      | .paused r => .paused (r + d) }

/-- Timer::toggle_subscribed_user. Modelled from the spec: the method is
called by action.rs line 123 and toggle_shared.rs line 54 but is absent from
the timer.rs of this snapshot; per spec section 4.4, if the actor is in the
subscriber set it is removed, otherwise it is added. -/
def Timer.toggle_subscribed_user (t : Timer) (u : UserId) : Timer :=
  if u ∈ t.subscribed_users then
    { t with subscribed_users := t.subscribed_users.erase u }
  else
    { t with subscribed_users := t.subscribed_users ++ [u] }

/-- One minute in nanoseconds, the floor on recurrence intervals
(every.rs line 56, recur.rs line 84: Duration::from_secs(60)). -/
def minuteNs : Time := 60000000000

/-- Number of triggers computed when a recurring timer fires
(timer.rs lines 256 to 261): 1.0 + floor(secs_since_end / recur_secs),
with secs_since_end clamped at zero. -/
def numTriggers (end_time interval now : Time) : Nat :=
  1 + (now - end_time) / interval

/-- New end time of a recurring timer after it fires
(timer.rs lines 262 to 263): end_time + recur * num_triggers. -/
def recurNext (end_time interval now : Time) : Time :=
  end_time + interval * numTriggers end_time interval now

/-- The per-user timer map, HashMap of String to Timer (database/user.rs,
UserData.timers), modelled as a function keyed by the timer id. -/
abbrev TimerMap := String → Option Timer

/-- A live wait task spawned by Timer::create_task (timer.rs lines 239 to
298). The spawned closure captures the timer id, the user id, the recurrence
interval and the end time at spawn; the handle is the id of the JoinHandle. -/
structure LiveTask where
  handle : Nat
  user : UserId
  timer : String
  recur : Option Time
  endTime : Time
deriving DecidableEq

/-- The process state relevant to timers: the in-memory user cache and the
SQL backing of database/mod.rs (cache holds the users fetched so far;
commit_user_field writes one user field back), plus the registry of live
wait tasks spawned by tokio and a counter supplying fresh handles. -/
structure Db where
  cache : UserId → Option TimerMap
  persisted : UserId → TimerMap
  live : List LiveTask
  nextTask : Nat

/-- Pointwise update of a timer map. -/
def setT (m : TimerMap) (k : String) (v : Option Timer) : TimerMap :=
  fun x => if x = k then v else m x

/-- Pointwise update of a user-indexed map. -/
def setU {α : Type} (m : UserId → α) (k : UserId) (v : α) : UserId → α :=
  fun x => if x = k then v else m x

/-- The timer record currently in the in-memory cache, the record all
mutating commands act on through get_user_field_mut. -/
def Db.timerAt (db : Db) (u : UserId) (tid : String) : Option Timer :=
  match db.cache u with
  | some m => m tid
  | none => none

/-- Write one slot of the cached timer map of user u. Commands only call
this after ensureCached, so the none branch is defensive. -/
def Db.setTimer (db : Db) (u : UserId) (tid : String) (v : Option Timer) : Db :=
  match db.cache u with
  | some m => { db with cache := setU db.cache u (some (setT m tid v)) }
  | none => db

/-- Replace the live task registry of a state, leaving everything else. -/
def Db.setLive (db : Db) (L : List LiveTask) : Db :=
  Db.mk db.cache db.persisted L db.nextTask

/-- Database::get_user_mut (database/mod.rs lines 188 to 215): if the user is
not cached, fetch the persisted row into the cache. -/
def ensureCached (db : Db) (u : UserId) : Db :=
  match db.cache u with
  | some _ => db
  | none => { db with cache := setU db.cache u (some (db.persisted u)) }

/-- Serialization of a timer map (serde): the task field is marked
serde(skip), so persisted records carry no task handle. -/
def stripMap (m : TimerMap) : TimerMap :=
  fun id => (m id).map (fun t => { t with task := none })

/-- Database::commit_user_field for the Timers field (database/mod.rs lines
247 to 261): serialize the cached map of user u into the SQL row. -/
def commitUser (db : Db) (u : UserId) : Db :=
  Db.mk (ensureCached db u).cache
    (setU (ensureCached db u).persisted u
      (stripMap (match (ensureCached db u).cache u with
        | some m => m
        | none => (ensureCached db u).persisted u)))
    (ensureCached db u).live
    (ensureCached db u).nextTask

/-- Abort the wait task with the given handle (JoinHandle::abort): it leaves
the registry of live tasks. -/
def abortHandles (live : List LiveTask) (h : Nat) : List LiveTask :=
  live.filter (fun e => e.handle ≠ h)

/-- Abort the task held in an Option handle, a no-op on none
(the `if let Some(task) = self.task.take() { task.abort() }` pattern). -/
def abortOpt (live : List LiveTask) : Option Nat → List LiveTask
  | none => live
  | some h => abortHandles live h

/-- Timer::create_task (timer.rs lines 222 to 299) acting on the cached
record of (u, tid): return immediately if the timer is paused (before the
old task would be aborted); otherwise abort the old task if any, spawn a
new wait task capturing id, user, recur and end time, and store its handle
in the record. -/
def Db.createTask (db : Db) (u : UserId) (tid : String) : Db :=
  match db.cache u with
  | none => db
  | some m =>
    match m tid with
    | none => db
    | some t =>
      match t.state with
      | .paused _ => db
      | .running e =>
        { db with
          cache := setU db.cache u (some (setT m tid
            (some { t with task := some db.nextTask }))),
          live := LiveTask.mk db.nextTask u tid t.recur e :: abortOpt db.live t.task,
          nextTask := db.nextTask + 1 }

/-- Pause::execute (pause.rs lines 24 to 49): look up the timer, pause it
(aborting its task), commit. A missing id only produces the not-found reply. -/
def pauseCmd (db : Db) (u : UserId) (tid : String) (now : Time) : Db :=
  match (ensureCached db u).timerAt u tid with
  | none => ensureCached db u
  | some t =>
    commitUser
      (((ensureCached db u).setTimer u tid (some (t.pause now))).setLive
        (abortOpt (ensureCached db u).live t.task)) u

/-- Resume::execute (resume.rs lines 24 to 52): resume (aborting the old
task), create_task, commit. -/
def resumeCmd (db : Db) (u : UserId) (tid : String) (now : Time) : Db :=
  match (ensureCached db u).timerAt u tid with
  | none => ensureCached db u
  | some t =>
    commitUser
      ((((ensureCached db u).setTimer u tid (some (t.resume now))).setLive
        (abortOpt (ensureCached db u).live t.task)).createTask u tid) u

/-- Edit::execute (edit.rs lines 27 to 83): replace the message, set the new
duration, create_task, commit. -/
def editCmd (db : Db) (u : UserId) (tid : String) (now d : Time)
    (msg : String) : Db :=
  match (ensureCached db u).timerAt u tid with
  | none => ensureCached db u
  | some t =>
    commitUser
      (((ensureCached db u).setTimer u tid
        (some (({ t with message := msg }).set_new_duration now d))).createTask u tid) u

/-- Increment::execute (increment.rs lines 28 to 80): add the duration to
the cached record (the AddAssign impl), create_task, and return.
No commit_user_field call appears in the source. -/
def incrementCmd (db : Db) (u : UserId) (tid : String) (d : Time) : Db :=
  match (ensureCached db u).timerAt u tid with
  | none => ensureCached db u
  | some t =>
    ((ensureCached db u).setTimer u tid (some (t.addDur d))).createTask u tid

/-- Recur::execute (recur.rs lines 26 to 102): disable recurrence when set,
otherwise require an interval of at least one minute and enable it; both
mutating branches call create_task and commit. -/
def recurCmd (db : Db) (u : UserId) (tid : String)
    (interval : Option Time) : Db :=
  match (ensureCached db u).timerAt u tid with
  | none => ensureCached db u
  | some t =>
    if t.recur.isSome then
      commitUser
        (((ensureCached db u).setTimer u tid
          (some { t with recur := none })).createTask u tid) u
    else
      match interval with
      | none => ensureCached db u
      | some i =>
        if i < minuteNs then ensureCached db u
        else
          commitUser
            (((ensureCached db u).setTimer u tid
              (some { t with recur := some i })).createTask u tid) u

/-- Label of the subscribe button (action.rs lines 126 to 140,
also complete, lines 54 to 62). -/
def buttonLabel (n : Nat) : String :=
  if n = 0 then "Remind me"
  else if n = 1 then "Remind me (1 user)"
  else "Remind me (" ++ toString n ++ " users)"

/-- Ephemeral follow-up text of the empty-set branch (action.rs line 130). -/
def notifRemoved : String :=
  "**Success:** You will _no longer_ receive this reminder."

/-- Ephemeral follow-up text of the nonempty-set branch (action.rs line 138,
with the doubled word exactly as in the source). -/
def notifAdded : String :=
  "**Success:** You _will_ also be pinged when this reminder reminder triggers."

/-- Result surfaced by toggle_shared: the author short-circuit, a silent
return on a missing timer, or the updated button label together with the
ephemeral confirmation sent to the actor. -/
inductive ToggleResp where
  | author : ToggleResp
  | missing : ToggleResp
  | toggled (label notification : String) : ToggleResp
deriving DecidableEq

/-- toggle_shared (action.rs lines 89 to 177, identically toggle_shared.rs
lines 20 to 108): an actor equal to the author gets the author reply with no
mutation; otherwise the subscriber set of the cached record is toggled, the
wait is re-armed via create_task, and the label and confirmation are chosen
by whether the resulting subscriber count is zero. No commit_user_field call
appears in the source. -/
def toggle_shared (db : Db) (author actor : UserId) (tid : String) :
    Db × ToggleResp :=
  if author = actor then (db, .author)
  else
    match (ensureCached db author).timerAt author tid with
    | none => (ensureCached db author, .missing)
    | some t =>
      (((ensureCached db author).setTimer author tid
          (some (t.toggle_subscribed_user actor))).createTask author tid,
       .toggled (buttonLabel (t.toggle_subscribed_user actor).subscribed_users.length)
         (if (t.toggle_subscribed_user actor).subscribed_users.length = 0
          then notifRemoved else notifAdded))

/-- action::complete for Reason::Deleted as driven by Delete::execute
(delete.rs lines 24 to 53, action.rs lines 38 to 53): remove the record,
commit, return the removed timer by value; when the returned record is
dropped at the end of the command its Drop impl (timer.rs lines 54 to 60)
aborts the wait task. A missing id returns none before any commit. -/
def deleteCmd (db : Db) (u : UserId) (tid : String) : Db × Option Timer :=
  match (ensureCached db u).timerAt u tid with
  | none => (ensureCached db u, none)
  | some t =>
    ((commitUser ((ensureCached db u).setTimer u tid none) u).setLive
      (abortOpt (commitUser ((ensureCached db u).setTimer u tid none) u).live t.task),
     some t)

/-- The spawn performed by create_task on the freshly built timer inside
create_timer_and_confirm (remind/mod.rs line 63): the new timer is always
running and carries no old task, so a wait task is registered under a fresh
handle. -/
def spawnFresh (db : Db) (u : UserId) (id : String) (rec : Option Time)
    (endT : Time) : Db :=
  Db.mk db.cache db.persisted
    (LiveTask.mk db.nextTask u id rec endT :: db.live) (db.nextTask + 1)

/-- create_timer_and_confirm (remind/mod.rs lines 46 to 117): build the
timer (recur set for the Every label), call create_task on the local value,
then insert it into the cached map and commit. HashMap::insert silently
drops any previous record under the same id, aborting its task via Drop. -/
def createCmd (db : Db) (u : UserId) (id : String) (ch : Nat) (endT : Time)
    (msg : String) (rec : Option Time) : Db :=
  commitUser
    (((ensureCached (spawnFresh db u id rec endT) u).setTimer u id
        (some { Timer.running id u ch endT msg with recur := rec, task := some db.nextTask })).setLive
      (abortOpt (ensureCached (spawnFresh db u id rec endT) u).live
        (((ensureCached (spawnFresh db u id rec endT) u).timerAt u id).bind Timer.task))) u

/-- The wait task ends with Err when the dispatch at timer.rs line 250
fails: the `?` operator returns from the async block, so the task leaves the
registry with the store untouched. -/
def fireErrCmd (db : Db) (e : LiveTask) : Db :=
  db.setLive (abortHandles db.live e.handle)

/-- The one-shot branch of the fire cycle (timer.rs lines 278 to 295): break
out of the loop, remove the record from the cached map, commit, and let the
Drop of the removed record abort the task; the task itself then returns and
leaves the registry. The commit is written outermost here; it only touches
the persisted side, so its position relative to the aborts does not change
the resulting state. -/
def fireOneShotCmd (db : Db) (e : LiveTask) : Db :=
  commitUser
    (((ensureCached db e.user).setTimer e.user e.timer none).setLive
      (abortHandles
        (abortOpt (ensureCached db e.user).live
          (((ensureCached db e.user).timerAt e.user e.timer).bind Timer.task))
        e.handle)) e.user

/-- The recurring branch of the fire cycle (timer.rs lines 252 to 277):
recompute the end time from the end time captured by the task, write it into
the cached record (which the source unwraps, so Step only takes this
transition when the record exists), update the local end time and sleep
future of the task, and commit. -/
def fireRecurCmd (db : Db) (e : LiveTask) (r : Time) (now : Time) : Db :=
  match (ensureCached db e.user).timerAt e.user e.timer with
  | none => ensureCached db e.user
  | some t =>
    commitUser
      (((ensureCached db e.user).setTimer e.user e.timer
          (some (t.set_new_end_time (recurNext e.endTime r now) now))).setLive
        ((ensureCached db e.user).live.map
          (fun x => if x.handle = e.handle
                    then { x with endTime := recurNext e.endTime r now } else x))) e.user

/-- One pass of the loop body of the spawned task (timer.rs lines 243 to
298) after the sleep elapses, parameterized by whether the dispatch at line
250 succeeds: on failure the `?` operator ends the task, otherwise the
recurring timer is re-armed or the one-shot timer is removed. -/
def fireIteration (db : Db) (e : LiveTask) (dispatchOk : Bool) (now : Time) : Db :=
  if dispatchOk then
    match e.recur with
    | some r => fireRecurCmd db e r now
    | none => fireOneShotCmd db e
  else fireErrCmd db e

/-- Process restart: the live task registry and handle counter start empty,
and Database::resume_users_with_timers (database/mod.rs lines 169 to 181)
loads every persisted user into the cache; deserialization leaves every task
field none because the field is serde(skip). The subsequent arming of each
running timer happens through Step.arm transitions. -/
def restartCmd (db : Db) : Db :=
  { cache := fun u => some (stripMap (db.persisted u)),
    persisted := db.persisted,
    live := [],
    nextTask := 0 }

/-- Number of live wait tasks registered for one timer id of one owner. -/
def waitCount (db : Db) (u : UserId) (tid : String) : Nat :=
  (db.live.filter (fun e => e.user = u ∧ e.timer = tid)).length

/-- The supervision invariant: every live wait task belongs to a cached
record that is running and whose task field holds exactly that handle, task
handles are pairwise distinct, and all handles are below the fresh counter. -/
def Inv (db : Db) : Prop :=
  (∀ e ∈ db.live, ∃ t, db.timerAt e.user e.timer = some t ∧
      t.state.isRunning = true ∧ t.task = some e.handle)
  ∧ (db.live.map LiveTask.handle).Nodup
  ∧ ∀ e ∈ db.live, e.handle < db.nextTask

/-- One atomic step of the system: each command of the external command
layer, the three outcomes of a wait task firing, a process restart, and the
re-arming of one timer during restart replay. -/
inductive Step : Db → Db → Prop where
  | create (db : Db) (u : UserId) (id : String) (ch : Nat) (endT : Time)
      (msg : String) (rec : Option Time) :
      Step db (createCmd db u id ch endT msg rec)
  | pause (db : Db) (u : UserId) (tid : String) (now : Time) :
      Step db (pauseCmd db u tid now)
  | resume (db : Db) (u : UserId) (tid : String) (now : Time) :
      Step db (resumeCmd db u tid now)
  | edit (db : Db) (u : UserId) (tid : String) (now d : Time) (msg : String) :
      Step db (editCmd db u tid now d msg)
  | increment (db : Db) (u : UserId) (tid : String) (d : Time) :
      Step db (incrementCmd db u tid d)
  | recurToggle (db : Db) (u : UserId) (tid : String) (interval : Option Time) :
      Step db (recurCmd db u tid interval)
  | toggleSub (db : Db) (author actor : UserId) (tid : String) :
      Step db (toggle_shared db author actor tid).1
  | delete (db : Db) (u : UserId) (tid : String) :
      Step db (deleteCmd db u tid).1
  | fireFail (db : Db) (e : LiveTask) (he : e ∈ db.live) :
      Step db (fireErrCmd db e)
  | fireOneShot (db : Db) (e : LiveTask) (he : e ∈ db.live)
      (hr : e.recur = none) :
      Step db (fireOneShotCmd db e)
  | fireRecur (db : Db) (e : LiveTask) (r : Time) (now : Time) (t : Timer)
      (he : e ∈ db.live) (hr : e.recur = some r)
      (ht : (ensureCached db e.user).timerAt e.user e.timer = some t) :
      Step db (fireRecurCmd db e r now)
  | restart (db : Db) :
      Step db (restartCmd db)
  | arm (db : Db) (u : UserId) (tid : String) :
      Step db (db.createTask u tid)

/-- Concrete one-shot running timer used to evaluate the model. -/
def tFix : Timer := ⟨"ab", 1, 5, .running 100, none, "hi", [], some 0⟩

/-- Concrete timer map holding tFix under its id. -/
def mFix : TimerMap := fun s => if s = "ab" then some tFix else none

/-- Concrete process state: user 1 cached with tFix, the same map persisted,
and the one live wait task of tFix registered. -/
def dbFix : Db :=
  ⟨fun u => if u = 1 then some mFix else none,
   fun u => if u = 1 then stripMap mFix else fun _ => none,
   [⟨0, 1, "ab", none, 100⟩], 1⟩

/-- The live wait task of tFix in dbFix. -/
def eFix : LiveTask := ⟨0, 1, "ab", none, 100⟩

/-- Concrete shared timer whose subscriber set holds users 5 and 9. -/
def tSub : Timer := ⟨"ab", 1, 5, .running 100, none, "hi", [5, 9], none⟩

/-- Concrete timer map holding tSub. -/
def mSub : TimerMap := fun s => if s = "ab" then some tSub else none

/-- Concrete process state caching tSub for user 1. -/
def dbSub : Db :=
  ⟨fun u => if u = 1 then some mSub else none,
   fun _ => fun _ => none, [], 0⟩

/-- Concrete paused timer with 40 remaining. -/
def tPau : Timer := ⟨"ab", 1, 5, .paused 40, none, "", [], none⟩

/-- Concrete timer map holding tPau. -/
def mPau : TimerMap := fun s => if s = "ab" then some tPau else none

/-- Concrete process state caching tPau for user 1, no live task. -/
def dbPau : Db :=
  ⟨fun u => if u = 1 then some mPau else none,
   fun _ => fun _ => none, [], 0⟩

/-- Claim C1: for every end time T, interval I of at least one minute, and
now = T + k * I + eps with 0 <= eps < I, the re-arm computation of a firing
recurring timer yields num_triggers = k + 1 and new end time T + (k+1) * I,
which is strictly after now; and when now is before T the clamped elapsed
time gives new end time T + I. -/
theorem recur_catchup_law (T I k ε : Time) (hI : minuteNs ≤ I) (hε : ε < I) :
    numTriggers T I (T + k * I + ε) = k + 1
  ∧ recurNext T I (T + k * I + ε) = T + (k + 1) * I
  ∧ T + k * I + ε < recurNext T I (T + k * I + ε)
  ∧ ∀ now, now < T → recurNext T I now = T + I := by
  have hI0 : 0 < I := lt_of_lt_of_le (by norm_num [minuteNs]) hI
  have hsub : T + k * I + ε - T = k * I + ε := by
    rw [add_assoc, Nat.add_sub_cancel_left]
  have hdiv : (k * I + ε) / I = k := by
    rw [mul_comm, Nat.mul_add_div hI0, Nat.div_eq_of_lt hε, add_zero]
  have hnum : numTriggers T I (T + k * I + ε) = k + 1 := by
    rw [numTriggers, hsub, hdiv, Nat.add_comm]
  refine ⟨hnum, ?_, ?_, ?_⟩
  · rw [recurNext, hnum]; ring
  · rw [recurNext, hnum]
    calc T + k * I + ε < T + k * I + I := Nat.add_lt_add_left hε _
      _ = T + I * (k + 1) := by ring
  · intro now hnow
    have hz : now - T = 0 := Nat.sub_eq_zero_of_le (le_of_lt hnow)
    simp [recurNext, numTriggers, hz]

/-- Witness for recur_catchup_law at T = 1000, I = one minute, k = 3,
eps = 5. -/
theorem recur_catchup_law_witness :
    minuteNs ≤ minuteNs ∧ (5 : Time) < minuteNs
  ∧ numTriggers 1000 minuteNs (1000 + 3 * minuteNs + 5) = 3 + 1 :=
  ⟨le_refl _, by norm_num [minuteNs],
   (recur_catchup_law 1000 minuteNs 3 5 (le_refl _) (by norm_num [minuteNs])).1⟩

/-- Claim C7: pausing a running timer at time p leaves remaining
r = end - p, and resuming at any later time p + d with d < r yields a
running timer ending exactly r after the resume call. -/
theorem pause_resume_roundtrip (t : Timer) (e p d r : Time)
    (he : t.state = .running e) (hr : r = e - p) (_hd : d < r) :
    (t.pause p).state = .paused r
  ∧ ((t.pause p).resume (p + d)).state = .running ((p + d) + r) := by
  constructor
  · simp [Timer.pause, he, hr]
  · simp [Timer.pause, Timer.resume, he, hr]

/-- Witness for pause_resume_roundtrip: end 100, pause at 30, resume 20
later. -/
theorem pause_resume_roundtrip_witness :
    (Timer.running "ab" 1 2 100 "").state = .running 100
  ∧ (70 : Time) = 100 - 30 ∧ (20 : Time) < 70
  ∧ (((Timer.running "ab" 1 2 100 "").pause 30).resume (30 + 20)).state
      = .running ((30 + 20) + 70) :=
  ⟨rfl, by decide, by decide,
   (pause_resume_roundtrip (Timer.running "ab" 1 2 100 "") 100 30 20 70
     rfl (by decide) (by decide)).2⟩

/-- Claim C3, counterexample: with the dispatch failing, the one-shot timer
stays in the cached map and in the Store, while a successful dispatch
removes it from both; the failing firing is not treated like a successful
one. -/
theorem fire_dispatch_failure_cex :
    (fireIteration dbFix eFix false 150).timerAt 1 "ab" = some tFix
  ∧ (fireIteration dbFix eFix false 150).persisted 1 "ab" = some { tFix with task := none }
  ∧ (fireIteration dbFix eFix true 150).timerAt 1 "ab" = none
  ∧ (fireIteration dbFix eFix true 150).persisted 1 "ab" = none := by
  refine ⟨rfl, ?_, ?_, ?_⟩ <;> decide

/-- Claim C3 amended: when the dispatch fails, the `?` operator ends the
wait task with the error: the cached map and the Store are left untouched
(no one-shot removal and no recurring re-arm), and the only effect is that
the task leaves the live registry. -/
theorem fire_dispatch_failure_frame (db : Db) (e : LiveTask) (now : Time) :
    (fireIteration db e false now).cache = db.cache
  ∧ (fireIteration db e false now).persisted = db.persisted
  ∧ (fireIteration db e false now).live = abortHandles db.live e.handle :=
  ⟨rfl, rfl, rfl⟩

theorem ensure_of_cached {db : Db} {u : UserId} {m : TimerMap}
    (h : db.cache u = some m) : ensureCached db u = db := by
  unfold ensureCached; rw [h]

theorem ensure_live (db : Db) (u : UserId) :
    (ensureCached db u).live = db.live := by
  unfold ensureCached; cases db.cache u <;> rfl

theorem ensure_nextTask (db : Db) (u : UserId) :
    (ensureCached db u).nextTask = db.nextTask := by
  unfold ensureCached; cases db.cache u <;> rfl

theorem ensure_persisted (db : Db) (u : UserId) :
    (ensureCached db u).persisted = db.persisted := by
  unfold ensureCached; cases db.cache u <;> rfl

theorem cache_of_timerAt {db : Db} {u : UserId} {tid : String} {t : Timer}
    (h : db.timerAt u tid = some t) :
    ∃ m, db.cache u = some m ∧ m tid = some t := by
  unfold Db.timerAt at h
  cases hc : db.cache u with
  | none => rw [hc] at h; exact absurd h (by simp)
  | some m => rw [hc] at h; exact ⟨m, rfl, h⟩

theorem setTimer_live (db : Db) (u : UserId) (tid : String) (v : Option Timer) :
    (db.setTimer u tid v).live = db.live := by
  unfold Db.setTimer; cases db.cache u <;> rfl

theorem setTimer_nextTask (db : Db) (u : UserId) (tid : String) (v : Option Timer) :
    (db.setTimer u tid v).nextTask = db.nextTask := by
  unfold Db.setTimer; cases db.cache u <;> rfl

theorem setTimer_persisted (db : Db) (u : UserId) (tid : String) (v : Option Timer) :
    (db.setTimer u tid v).persisted = db.persisted := by
  unfold Db.setTimer; cases db.cache u <;> rfl

theorem cache_setTimer_self {db : Db} {u : UserId} {m : TimerMap}
    (hm : db.cache u = some m) (tid : String) (v : Option Timer) :
    (db.setTimer u tid v).cache u = some (setT m tid v) := by
  simp [Db.setTimer, hm, setU]

theorem timerAt_setTimer_self {db : Db} {u : UserId} {m : TimerMap}
    (hm : db.cache u = some m) (tid : String) (v : Option Timer) :
    (db.setTimer u tid v).timerAt u tid = v := by
  simp [Db.timerAt, cache_setTimer_self hm, setT]

theorem setLive_cache (db : Db) (L : List LiveTask) :
    (db.setLive L).cache = db.cache := rfl

theorem setLive_live (db : Db) (L : List LiveTask) :
    (db.setLive L).live = L := rfl

theorem setLive_persisted (db : Db) (L : List LiveTask) :
    (db.setLive L).persisted = db.persisted := rfl

theorem setLive_nextTask (db : Db) (L : List LiveTask) :
    (db.setLive L).nextTask = db.nextTask := rfl

theorem timerAt_setLive (db : Db) (L : List LiveTask) (u : UserId) (tid : String) :
    (db.setLive L).timerAt u tid = db.timerAt u tid := rfl

theorem ensure_setLive_setTimer {db : Db} {u : UserId} {m : TimerMap}
    (hm : db.cache u = some m) (tid : String) (v : Option Timer)
    (L : List LiveTask) :
    ensureCached ((db.setTimer u tid v).setLive L) u
      = (db.setTimer u tid v).setLive L :=
  ensure_of_cached (cache_setTimer_self hm tid v)

theorem commit_cache (db : Db) (u : UserId) :
    (commitUser db u).cache = (ensureCached db u).cache := rfl

theorem commit_timerAt (db : Db) (u v : UserId) (tid : String) :
    (commitUser db u).timerAt v tid = (ensureCached db u).timerAt v tid := rfl

theorem commit_live (db : Db) (u : UserId) :
    (commitUser db u).live = db.live := ensure_live db u

theorem commit_nextTask (db : Db) (u : UserId) :
    (commitUser db u).nextTask = db.nextTask := ensure_nextTask db u

theorem commit_persisted_self {db : Db} {u : UserId} {m : TimerMap}
    (hm : db.cache u = some m) :
    (commitUser db u).persisted u = stripMap m := by
  unfold commitUser
  rw [ensure_of_cached hm]
  simp [hm, setU]

theorem createTask_persisted (db : Db) (u : UserId) (tid : String) :
    (db.createTask u tid).persisted = db.persisted := by
  unfold Db.createTask
  repeat (first | rfl | split)

theorem createTask_paused {db : Db} {u : UserId} {tid : String} {m : TimerMap}
    {t : Timer} {r : Time} (hm : db.cache u = some m) (hmt : m tid = some t)
    (hs : t.state = .paused r) :
    db.createTask u tid = db := by
  unfold Db.createTask; simp only [hm, hmt, hs]

theorem createTask_live_running {db : Db} {u : UserId} {tid : String}
    {m : TimerMap} {t : Timer} {e : Time} (hm : db.cache u = some m)
    (hmt : m tid = some t) (hs : t.state = .running e) :
    (db.createTask u tid).live
      = LiveTask.mk db.nextTask u tid t.recur e :: abortOpt db.live t.task := by
  unfold Db.createTask; simp only [hm, hmt, hs]

theorem createTask_nocache {db : Db} {u : UserId} (tid : String)
    (hc : db.cache u = none) : db.createTask u tid = db := by
  unfold Db.createTask; simp only [hc]

theorem createTask_norecord {db : Db} {u : UserId} {tid : String}
    {m : TimerMap} (hm : db.cache u = some m) (hmt : m tid = none) :
    db.createTask u tid = db := by
  unfold Db.createTask; simp only [hm, hmt]

theorem createTask_running_eq {db : Db} {u : UserId} {tid : String}
    {m : TimerMap} {t : Timer} {e : Time} (hm : db.cache u = some m)
    (hmt : m tid = some t) (hs : t.state = .running e) :
    db.createTask u tid =
      { db with
        cache := setU db.cache u
          (some (setT m tid (some { t with task := some db.nextTask }))),
        live := LiveTask.mk db.nextTask u tid t.recur e :: abortOpt db.live t.task,
        nextTask := db.nextTask + 1 } := by
  unfold Db.createTask; simp only [hm, hmt, hs]

theorem timerAt_createTask_self {db : Db} {u : UserId} {tid : String}
    {m : TimerMap} {t : Timer} (hm : db.cache u = some m)
    (hmt : m tid = some t) :
    ∃ o : Option Nat, (db.createTask u tid).timerAt u tid = some { t with task := o } := by
  unfold Db.createTask
  cases hs : t.state with
  | paused r =>
    refine ⟨t.task, ?_⟩
    simp only [hm, hmt, hs, Db.timerAt]
    rw [← hs]
  | running e =>
    refine ⟨some db.nextTask, ?_⟩
    simp [hm, hmt, hs, Db.timerAt, setU, setT]

/-- Claim C2, counterexample: after a non-author toggles a subscription, the
cached record holds the new subscriber set but the persisted record still
holds the old one — the operation does not commit to the Store. -/
theorem toggle_shared_commit_cex :
    ((toggle_shared dbFix 1 2 "ab").1.timerAt 1 "ab").map Timer.subscribed_users
      = some [2]
  ∧ ((toggle_shared dbFix 1 2 "ab").1.persisted 1 "ab").map Timer.subscribed_users
      = some [] := by
  constructor <;> decide

/-- Claim C2 amended: for every existing timer and actor other than the
author, toggle_shared adds the actor to the subscriber set when absent and
removes it when present in the cached in-memory record, and re-arms the
wait task, but it never commits: the persisted side of the Store is exactly
what it was before the call. -/
theorem toggle_shared_no_commit (db : Db) (author actor : UserId)
    (tid : String) (t : Timer) (e : Time)
    (hne : author ≠ actor)
    (ht : (ensureCached db author).timerAt author tid = some t) :
    ((toggle_shared db author actor tid).1.timerAt author tid).map Timer.subscribed_users
      = some (t.toggle_subscribed_user actor).subscribed_users
  ∧ (toggle_shared db author actor tid).1.persisted = db.persisted
  ∧ (actor ∈ t.subscribed_users → t.subscribed_users.Nodup →
      actor ∉ (t.toggle_subscribed_user actor).subscribed_users)
  ∧ (actor ∉ t.subscribed_users →
      actor ∈ (t.toggle_subscribed_user actor).subscribed_users)
  ∧ (t.state = .running e →
      LiveTask.mk db.nextTask author tid t.recur e
        ∈ (toggle_shared db author actor tid).1.live) := by
  obtain ⟨m, hm, hmt⟩ := cache_of_timerAt ht
  have hred : toggle_shared db author actor tid
      = (((ensureCached db author).setTimer author tid
            (some (t.toggle_subscribed_user actor))).createTask author tid,
         .toggled (buttonLabel (t.toggle_subscribed_user actor).subscribed_users.length)
           (if (t.toggle_subscribed_user actor).subscribed_users.length = 0
            then notifRemoved else notifAdded)) := by
    unfold toggle_shared
    rw [if_neg hne, ht]
  have hm2 : (((ensureCached db author).setTimer author tid
      (some (t.toggle_subscribed_user actor)))).cache author
      = some (setT m tid (some (t.toggle_subscribed_user actor))) :=
    cache_setTimer_self hm _ _
  have hmt2 : setT m tid (some (t.toggle_subscribed_user actor)) tid
      = some (t.toggle_subscribed_user actor) := by simp [setT]
  refine ⟨?_, ?_, ?_, ?_, ?_⟩
  · rw [hred]
    obtain ⟨o, ho⟩ := timerAt_createTask_self hm2 hmt2
    rw [ho]
    rfl
  · rw [hred]
    simp only [createTask_persisted, setTimer_persisted, ensure_persisted]
  · intro hmem hnd
    simp only [Timer.toggle_subscribed_user, if_pos hmem]
    exact hnd.not_mem_erase
  · intro hmem
    simp only [Timer.toggle_subscribed_user, if_neg hmem]
    simp
  · intro hrun
    rw [hred]
    have hrun2 : (t.toggle_subscribed_user actor).state = .running e := by
      unfold Timer.toggle_subscribed_user
      cases hc : decide (actor ∈ t.subscribed_users) <;> simp_all
    rw [createTask_live_running hm2 hmt2 hrun2]
    have hnt : (((ensureCached db author).setTimer author tid
        (some (t.toggle_subscribed_user actor)))).nextTask = db.nextTask := by
      rw [setTimer_nextTask, ensure_nextTask]
    have hrecur : (t.toggle_subscribed_user actor).recur = t.recur := by
      unfold Timer.toggle_subscribed_user
      cases hc : decide (actor ∈ t.subscribed_users) <;> simp_all
    rw [hnt, hrecur]
    exact List.mem_cons_self _ _

/-- Witness for toggle_shared_no_commit: user 2 toggles onto the shared
timer of user 1 in dbFix. -/
theorem toggle_shared_no_commit_witness :
    (1 : UserId) ≠ 2
  ∧ (ensureCached dbFix 1).timerAt 1 "ab" = some tFix
  ∧ (2 : UserId) ∉ tFix.subscribed_users
  ∧ tFix.state = .running 100
  ∧ (toggle_shared dbFix 1 2 "ab").1.persisted = dbFix.persisted
  ∧ (2 : UserId) ∈ (tFix.toggle_subscribed_user 2).subscribed_users
  ∧ LiveTask.mk dbFix.nextTask 1 "ab" tFix.recur 100
      ∈ (toggle_shared dbFix 1 2 "ab").1.live := by
  refine ⟨by decide, by decide, by decide, rfl, ?_, ?_, ?_⟩
  · exact (toggle_shared_no_commit dbFix 1 2 "ab" tFix 100 (by decide) (by decide)).2.1
  · exact (toggle_shared_no_commit dbFix 1 2 "ab" tFix 100 (by decide) (by decide)).2.2.2.1 (by decide)
  · exact (toggle_shared_no_commit dbFix 1 2 "ab" tFix 100 (by decide) (by decide)).2.2.2.2 rfl

/-- Claim C6: evaluation at the failing input. In dbSub the subscriber set
is [5, 9]; when actor 9 toggles, 9 is removed (one subscriber remains), yet
the ephemeral confirmation chosen by the resulting count being nonzero is
the "you will also be pinged" text rather than the "no longer receive"
text. -/
theorem toggle_notification_divergence :
    (tSub.toggle_subscribed_user 9).subscribed_users = [5]
  ∧ ((toggle_shared dbSub 1 9 "ab").1.timerAt 1 "ab").map Timer.subscribed_users
      = some [5]
  ∧ (toggle_shared dbSub 1 9 "ab").2 = .toggled "Remind me (1 user)" notifAdded := by
  refine ⟨by decide, by decide, by decide⟩

/-- Claim C5, counterexample: creating a timer whose externally generated id
collides with an existing timer of the same owner silently replaces that
timer (the record with message "hi" is gone, replaced by the new one). -/
theorem create_collision_cex :
    (dbFix.timerAt 1 "ab").map Timer.message = some "hi"
  ∧ ((createCmd dbFix 1 "ab" 9 200 "new" none).timerAt 1 "ab").map Timer.message
      = some "new" := by
  constructor <;> decide

/-- Claim C5 amended: the timer map of an owner is keyed by id, so ids are
pairwise distinct by construction, but creation inserts the generated id
unchecked: the new record (armed with a fresh task handle) lands under the
generated id, replacing any previous record there, while the records under
every other id are untouched. -/
theorem create_insert_spec (db : Db) (u : UserId) (id : String) (ch : Nat)
    (endT : Time) (msg : String) (rec : Option Time) (j : String)
    (hj : j ≠ id) :
    (createCmd db u id ch endT msg rec).timerAt u id
      = some { Timer.running id u ch endT msg with recur := rec, task := some db.nextTask }
  ∧ (createCmd db u id ch endT msg rec).timerAt u j
      = (ensureCached db u).timerAt u j := by
  have hload : ∃ m, (ensureCached (spawnFresh db u id rec endT) u).cache u = some m
      ∧ (ensureCached db u).cache u = some m := by
    unfold ensureCached spawnFresh
    cases hc : db.cache u with
    | some m => exact ⟨m, hc, hc⟩
    | none => exact ⟨db.persisted u, by simp [setU], by simp [setU]⟩
  obtain ⟨m, hm1, hm2⟩ := hload
  constructor
  · unfold createCmd
    rw [commit_timerAt, ensure_setLive_setTimer hm1, timerAt_setLive,
      timerAt_setTimer_self hm1]
  · unfold createCmd
    rw [commit_timerAt, ensure_setLive_setTimer hm1, timerAt_setLive]
    simp [Db.timerAt, cache_setTimer_self hm1, setT, hj, hm2]

theorem mem_of_mem_abortOpt {live : List LiveTask} {o : Option Nat}
    {x : LiveTask} (hx : x ∈ abortOpt live o) : x ∈ live := by
  cases o with
  | none => exact hx
  | some h => exact (List.mem_filter.mp hx).1

theorem handle_ne_of_mem_abort {live : List LiveTask} {h : Nat} {x : LiveTask}
    (hx : x ∈ abortOpt live (some h)) : x.handle ≠ h := by
  have h2 := (List.mem_filter.mp hx).2
  simpa using h2

theorem abortOpt_sublist (live : List LiveTask) (o : Option Nat) :
    (abortOpt live o).Sublist live := by
  cases o with
  | none => exact List.Sublist.refl _
  | some h => exact List.filter_sublist _

theorem timerAt_setTimer_ne {db : Db} {u : UserId} {tid : String}
    (v : Option Timer) {u2 : UserId} {tid2 : String}
    (h : ¬(u2 = u ∧ tid2 = tid)) :
    (db.setTimer u tid v).timerAt u2 tid2 = db.timerAt u2 tid2 := by
  unfold Db.setTimer Db.timerAt
  cases hc : db.cache u with
  | none => rfl
  | some m =>
    by_cases hu : u2 = u
    · subst hu
      have htid : tid2 ≠ tid := fun he => h ⟨rfl, he⟩
      simp [setU, setT, htid, hc]
    · simp [setU, hu]

theorem timerAt_congr {db1 db2 : Db} (h : db2.cache = db1.cache)
    (u : UserId) (tid : String) : db2.timerAt u tid = db1.timerAt u tid := by
  unfold Db.timerAt; rw [h]

theorem inv_congr {db1 db2 : Db} (h1 : db2.cache = db1.cache)
    (h2 : db2.live = db1.live) (h3 : db2.nextTask = db1.nextTask)
    (hInv : Inv db1) : Inv db2 := by
  refine ⟨?_, ?_, ?_⟩
  · intro e he
    rw [h2] at he
    obtain ⟨t, ht, hr, hk⟩ := hInv.1 e he
    exact ⟨t, by rw [timerAt_congr h1]; exact ht, hr, hk⟩
  · rw [h2]; exact hInv.2.1
  · intro e he
    rw [h2] at he
    rw [h3]
    exact hInv.2.2 e he

theorem inv_ensure {db : Db} (u : UserId) (hInv : Inv db) :
    Inv (ensureCached db u) := by
  cases hc : db.cache u with
  | some m => rw [ensure_of_cached hc]; exact hInv
  | none =>
    have hred : ensureCached db u
        = { db with cache := setU db.cache u (some (db.persisted u)) } := by
      unfold ensureCached; rw [hc]
    rw [hred]
    refine ⟨?_, hInv.2.1, hInv.2.2⟩
    intro e he
    obtain ⟨t, ht, hr, hk⟩ := hInv.1 e he
    refine ⟨t, ?_, hr, hk⟩
    have hne : e.user ≠ u := by
      intro hEq
      rw [hEq] at ht
      simp [Db.timerAt, hc] at ht
    simpa [Db.timerAt, setU, hne] using ht

theorem inv_commit {db : Db} (u : UserId) (hInv : Inv db) :
    Inv (commitUser db u) :=
  inv_congr rfl rfl rfl (inv_ensure u hInv)

theorem inv_sublist_live {db : Db} {L : List LiveTask} (hL : L.Sublist db.live)
    (hInv : Inv db) : Inv (db.setLive L) := by
  refine ⟨?_, ?_, ?_⟩
  · intro e he
    exact hInv.1 e (hL.mem he)
  · exact ((hL.map LiveTask.handle).nodup hInv.2.1)
  · intro e he
    exact hInv.2.2 e (hL.mem he)

theorem abort_clears_key {db : Db} {u : UserId} {tid : String} {t : Timer}
    (hInv : Inv db) (ht : db.timerAt u tid = some t) :
    ∀ x ∈ abortOpt db.live t.task, ¬(x.user = u ∧ x.timer = tid) := by
  intro x hx hpx
  have hxl : x ∈ db.live := mem_of_mem_abortOpt hx
  obtain ⟨t3, ht3, _, htask3⟩ := hInv.1 x hxl
  rw [hpx.1, hpx.2, ht] at ht3
  have hEq3 : t3 = t := by injection ht3.symm
  subst hEq3
  cases htk : t3.task with
  | none => rw [htk] at htask3; exact absurd htask3 (by simp)
  | some h =>
    rw [htk] at hx
    rw [htk] at htask3
    have hne2 : x.handle ≠ h := handle_ne_of_mem_abort hx
    have hh : x.handle = h := by injection htask3.symm
    exact hne2 hh

theorem absent_clears_key {db : Db} {u : UserId} {tid : String}
    (hInv : Inv db) (ht : db.timerAt u tid = none) :
    ∀ x ∈ db.live, ¬(x.user = u ∧ x.timer = tid) := by
  intro x hx hpx
  obtain ⟨t3, ht3, _, _⟩ := hInv.1 x hx
  rw [hpx.1, hpx.2, ht] at ht3
  exact absurd ht3 (by simp)

theorem inv_set_safe {db : Db} {u : UserId} {tid : String} {L : List LiveTask}
    (hInv : Inv db) (v : Option Timer) (hL : L.Sublist db.live)
    (hgone : ∀ x ∈ L, ¬(x.user = u ∧ x.timer = tid)) :
    Inv ((db.setTimer u tid v).setLive L) := by
  refine ⟨?_, ?_, ?_⟩
  · intro e he
    have hel : e ∈ db.live := hL.mem he
    obtain ⟨t3, ht3, hr, hk⟩ := hInv.1 e hel
    refine ⟨t3, ?_, hr, hk⟩
    rw [timerAt_setLive, timerAt_setTimer_ne v (hgone e he)]
    exact ht3
  · rw [setLive_live]
    exact ((hL.map LiveTask.handle).nodup hInv.2.1)
  · intro e he
    rw [setLive_nextTask, setTimer_nextTask]
    exact hInv.2.2 e (hL.mem he)

theorem inv_set_compat {db : Db} {u : UserId} {tid : String} {t t1 : Timer}
    (hInv : Inv db) (ht : db.timerAt u tid = some t)
    (h1 : t1.task = t.task)
    (h2 : t.state.isRunning = true → t1.state.isRunning = true) :
    Inv (db.setTimer u tid (some t1)) := by
  obtain ⟨m, hm, hmt⟩ := cache_of_timerAt ht
  refine ⟨?_, ?_, ?_⟩
  · intro e he
    rw [setTimer_live] at he
    obtain ⟨t3, ht3, hr, hk⟩ := hInv.1 e he
    by_cases hkey : e.user = u ∧ e.timer = tid
    · have ht3b : t3 = t := by
        rw [hkey.1, hkey.2, ht] at ht3
        injection ht3.symm
      subst ht3b
      refine ⟨t1, ?_, h2 hr, ?_⟩
      · rw [hkey.1, hkey.2, timerAt_setTimer_self hm]
      · rw [h1]; exact hk
    · refine ⟨t3, ?_, hr, hk⟩
      rw [timerAt_setTimer_ne (some t1) hkey]
      exact ht3
  · rw [setTimer_live]; exact hInv.2.1
  · intro e he
    rw [setTimer_live] at he
    rw [setTimer_nextTask]
    exact hInv.2.2 e he

theorem inv_set_compat_map {db : Db} {u : UserId} {tid : String} {t t1 : Timer}
    {f : LiveTask → LiveTask}
    (hInv : Inv db) (ht : db.timerAt u tid = some t)
    (h1 : t1.task = t.task)
    (h2 : t.state.isRunning = true → t1.state.isRunning = true)
    (hf : ∀ x, (f x).handle = x.handle ∧ (f x).user = x.user ∧ (f x).timer = x.timer) :
    Inv ((db.setTimer u tid (some t1)).setLive (db.live.map f)) := by
  obtain ⟨m, hm, hmt⟩ := cache_of_timerAt ht
  refine ⟨?_, ?_, ?_⟩
  · intro e he
    rw [setLive_live] at he
    obtain ⟨x, hx, hfx⟩ := List.mem_map.mp he
    obtain ⟨t3, ht3, hr, hk⟩ := hInv.1 x hx
    obtain ⟨hh, hu2, ht2⟩ := hf x
    rw [hfx] at hh hu2 ht2
    by_cases hkey : x.user = u ∧ x.timer = tid
    · have ht3b : t3 = t := by
        rw [hkey.1, hkey.2, ht] at ht3
        injection ht3.symm
      subst ht3b
      refine ⟨t1, ?_, h2 hr, ?_⟩
      · rw [timerAt_setLive, hu2, ht2, hkey.1, hkey.2, timerAt_setTimer_self hm]
      · rw [h1, hh]; exact hk
    · refine ⟨t3, ?_, hr, ?_⟩
      · rw [timerAt_setLive, hu2, ht2, timerAt_setTimer_ne (some t1) hkey]
        exact ht3
      · rw [hh]; exact hk
  · rw [setLive_live]
    have hmm : (db.live.map f).map LiveTask.handle = db.live.map LiveTask.handle := by
      rw [List.map_map]
      exact List.map_congr_left (fun x _ => (hf x).1)
    rw [hmm]
    exact hInv.2.1
  · intro e he
    rw [setLive_live] at he
    obtain ⟨x, hx, hfx⟩ := List.mem_map.mp he
    rw [setLive_nextTask, setTimer_nextTask, ← hfx, (hf x).1]
    exact hInv.2.2 x hx

theorem inv_createTask {db : Db} (u : UserId) (tid : String) (hInv : Inv db) :
    Inv (db.createTask u tid) := by
  cases hc : db.cache u with
  | none => rw [createTask_nocache tid hc]; exact hInv
  | some m =>
    cases hmt : m tid with
    | none => rw [createTask_norecord hc hmt]; exact hInv
    | some t =>
      cases hs : t.state with
      | paused r => rw [createTask_paused hc hmt hs]; exact hInv
      | running e =>
        rw [createTask_running_eq hc hmt hs]
        have ht : db.timerAt u tid = some t := by simp [Db.timerAt, hc, hmt]
        refine ⟨?_, ?_, ?_⟩
        · intro x hx
          rcases List.mem_cons.mp hx with hx1 | hx2
          · subst hx1
            refine ⟨{ t with task := some db.nextTask }, ?_, ?_, rfl⟩
            · simp [Db.timerAt, setU, setT]
            · simp [TimerState.isRunning, hs]
          · have hxl : x ∈ db.live := mem_of_mem_abortOpt hx2
            obtain ⟨t3, ht3, hr, hk⟩ := hInv.1 x hxl
            by_cases hkey : x.user = u ∧ x.timer = tid
            · exfalso
              have ht3b : t3 = t := by
                rw [hkey.1, hkey.2, ht] at ht3
                injection ht3.symm
              subst ht3b
              cases htk : t3.task with
              | none => rw [htk] at hk; exact absurd hk (by simp)
              | some h =>
                rw [htk] at hx2
                rw [htk] at hk
                have hne2 : x.handle ≠ h := handle_ne_of_mem_abort hx2
                have hh : x.handle = h := by injection hk.symm
                exact hne2 hh
            · refine ⟨t3, ?_, hr, hk⟩
              have hu2 : ¬(x.user = u ∧ x.timer = tid) := hkey
              show Db.timerAt _ x.user x.timer = some t3
              unfold Db.timerAt
              by_cases hu : x.user = u
              · have htid : x.timer ≠ tid := fun hEq => hu2 ⟨hu, hEq⟩
                simpa [setU, setT, hu, htid, Db.timerAt, hc] using ht3
              · simpa [setU, hu, Db.timerAt] using ht3
        · show ((LiveTask.mk db.nextTask u tid t.recur e :: abortOpt db.live t.task).map
            LiveTask.handle).Nodup
          rw [List.map_cons]
          refine List.Nodup.cons ?_ ?_
          · intro hmem
            obtain ⟨x, hx, hxh⟩ := List.mem_map.mp hmem
            have h2 := hInv.2.2 x (mem_of_mem_abortOpt hx)
            have hxh2 : x.handle = db.nextTask := hxh
            omega
          · exact ((abortOpt_sublist db.live t.task).map LiveTask.handle).nodup hInv.2.1
        · intro x hx
          rcases List.mem_cons.mp hx with hx1 | hx2
          · subst hx1
            show db.nextTask < db.nextTask + 1
            omega
          · have := hInv.2.2 x (mem_of_mem_abortOpt hx2)
            show x.handle < db.nextTask + 1
            omega

theorem toggle_task (t : Timer) (a : UserId) :
    (t.toggle_subscribed_user a).task = t.task := by
  unfold Timer.toggle_subscribed_user; split <;> rfl

theorem toggle_state (t : Timer) (a : UserId) :
    (t.toggle_subscribed_user a).state = t.state := by
  unfold Timer.toggle_subscribed_user; split <;> rfl

theorem isRunning_set_new_duration (t : Timer) (now d : Time) :
    (t.set_new_duration now d).state.isRunning = t.state.isRunning := by
  unfold Timer.set_new_duration
  cases h : t.state <;> simp [TimerState.isRunning]

theorem isRunning_set_new_end_time (t : Timer) (ne2 now : Time) :
    (t.set_new_end_time ne2 now).state.isRunning = t.state.isRunning := by
  unfold Timer.set_new_end_time
  cases h : t.state <;> simp [TimerState.isRunning]

theorem isRunning_addDur (t : Timer) (d : Time) :
    (t.addDur d).state.isRunning = t.state.isRunning := by
  unfold Timer.addDur
  cases h : t.state <;> simp [TimerState.isRunning]

theorem mem_of_mem_abortHandles {live : List LiveTask} {h : Nat} {x : LiveTask}
    (hx : x ∈ abortHandles live h) : x ∈ live :=
  (List.mem_filter.mp hx).1

theorem inv_pauseCmd {db : Db} (u : UserId) (tid : String) (now : Time)
    (hInv : Inv db) : Inv (pauseCmd db u tid now) := by
  unfold pauseCmd
  cases hres : (ensureCached db u).timerAt u tid with
  | none => exact inv_ensure u hInv
  | some t =>
    exact inv_commit u (inv_set_safe (inv_ensure u hInv) _ (abortOpt_sublist _ _)
      (abort_clears_key (inv_ensure u hInv) hres))

theorem inv_resumeCmd {db : Db} (u : UserId) (tid : String) (now : Time)
    (hInv : Inv db) : Inv (resumeCmd db u tid now) := by
  unfold resumeCmd
  cases hres : (ensureCached db u).timerAt u tid with
  | none => exact inv_ensure u hInv
  | some t =>
    exact inv_commit u (inv_createTask u tid
      (inv_set_safe (inv_ensure u hInv) _ (abortOpt_sublist _ _)
        (abort_clears_key (inv_ensure u hInv) hres)))

theorem inv_editCmd {db : Db} (u : UserId) (tid : String) (now d : Time)
    (msg : String) (hInv : Inv db) : Inv (editCmd db u tid now d msg) := by
  unfold editCmd
  cases hres : (ensureCached db u).timerAt u tid with
  | none => exact inv_ensure u hInv
  | some t =>
    refine inv_commit u (inv_createTask u tid
      (inv_set_compat (inv_ensure u hInv) hres rfl ?_))
    intro h
    rw [isRunning_set_new_duration]
    exact h

theorem inv_incrementCmd {db : Db} (u : UserId) (tid : String) (d : Time)
    (hInv : Inv db) : Inv (incrementCmd db u tid d) := by
  unfold incrementCmd
  cases hres : (ensureCached db u).timerAt u tid with
  | none => exact inv_ensure u hInv
  | some t =>
    refine inv_createTask u tid (inv_set_compat (inv_ensure u hInv) hres rfl ?_)
    intro h
    rw [isRunning_addDur]
    exact h

theorem inv_recurCmd {db : Db} (u : UserId) (tid : String)
    (interval : Option Time) (hInv : Inv db) :
    Inv (recurCmd db u tid interval) := by
  unfold recurCmd
  cases hres : (ensureCached db u).timerAt u tid with
  | none => exact inv_ensure u hInv
  | some t =>
    show Inv (if t.recur.isSome = true then _ else _)
    by_cases hrec : t.recur.isSome = true
    · rw [if_pos hrec]
      exact inv_commit u (inv_createTask u tid
        (inv_set_compat (inv_ensure u hInv) hres rfl (fun h => h)))
    · rw [if_neg hrec]
      cases interval with
      | none => exact inv_ensure u hInv
      | some i =>
        show Inv (if i < minuteNs then _ else _)
        by_cases hi : i < minuteNs
        · rw [if_pos hi]; exact inv_ensure u hInv
        · rw [if_neg hi]
          exact inv_commit u (inv_createTask u tid
            (inv_set_compat (inv_ensure u hInv) hres rfl (fun h => h)))

theorem inv_toggleShared {db : Db} (author actor : UserId) (tid : String)
    (hInv : Inv db) : Inv (toggle_shared db author actor tid).1 := by
  unfold toggle_shared
  by_cases hab : author = actor
  · rw [if_pos hab]; exact hInv
  · rw [if_neg hab]
    cases hres : (ensureCached db author).timerAt author tid with
    | none => exact inv_ensure author hInv
    | some t =>
      refine inv_createTask author tid
        (inv_set_compat (inv_ensure author hInv) hres (toggle_task t actor) ?_)
      intro h
      rw [toggle_state]
      exact h

theorem inv_deleteCmd {db : Db} (u : UserId) (tid : String) (hInv : Inv db) :
    Inv (deleteCmd db u tid).1 := by
  unfold deleteCmd
  cases hres : (ensureCached db u).timerAt u tid with
  | none => exact inv_ensure u hInv
  | some t =>
    obtain ⟨m, hm, hmt⟩ := cache_of_timerAt hres
    have hbase : Inv (((ensureCached db u).setTimer u tid none).setLive
        (abortOpt (ensureCached db u).live t.task)) :=
      inv_set_safe (inv_ensure u hInv) none (abortOpt_sublist _ _)
        (abort_clears_key (inv_ensure u hInv) hres)
    refine inv_congr ?_ ?_ ?_ hbase
    · rw [setLive_cache, commit_cache,
        ensure_of_cached (cache_setTimer_self hm tid none), setLive_cache]
    · rw [setLive_live, commit_live, setTimer_live, setLive_live]
    · rw [setLive_nextTask, commit_nextTask, setTimer_nextTask,
        setLive_nextTask, setTimer_nextTask]

theorem inv_fireErrCmd {db : Db} (e : LiveTask) (hInv : Inv db) :
    Inv (fireErrCmd db e) :=
  inv_sublist_live (List.filter_sublist _) hInv

theorem inv_fireOneShotCmd {db : Db} (e : LiveTask) (hInv : Inv db) :
    Inv (fireOneShotCmd db e) := by
  unfold fireOneShotCmd
  cases hres : (ensureCached db e.user).timerAt e.user e.timer with
  | some t =>
    refine inv_commit _ (inv_set_safe (inv_ensure _ hInv) none ?_ ?_)
    · exact (List.filter_sublist _).trans (abortOpt_sublist _ _)
    · intro x hx
      exact abort_clears_key (inv_ensure _ hInv) hres x (mem_of_mem_abortHandles hx)
  | none =>
    refine inv_commit _ (inv_set_safe (inv_ensure _ hInv) none ?_ ?_)
    · exact List.filter_sublist _
    · intro x hx
      exact absent_clears_key (inv_ensure _ hInv) hres x (mem_of_mem_abortHandles hx)

theorem inv_fireRecurCmd {db : Db} (e : LiveTask) (r now : Time)
    (hInv : Inv db) : Inv (fireRecurCmd db e r now) := by
  unfold fireRecurCmd
  cases hres : (ensureCached db e.user).timerAt e.user e.timer with
  | none => exact inv_ensure _ hInv
  | some t =>
    refine inv_commit _ (inv_set_compat_map (inv_ensure _ hInv) hres rfl ?_ ?_)
    · intro h
      rw [isRunning_set_new_end_time]
      exact h
    · intro x
      by_cases hxx : x.handle = e.handle <;> simp [hxx]

theorem inv_restartCmd (db : Db) : Inv (restartCmd db) := by
  refine ⟨?_, ?_, ?_⟩
  · intro e he
    exact absurd he (by simp [restartCmd])
  · simp [restartCmd]
  · intro e he
    exact absurd he (by simp [restartCmd])

theorem inv_createCmd {db : Db} (u : UserId) (id : String) (ch : Nat)
    (endT : Time) (msg : String) (rec : Option Time) (hInv : Inv db) :
    Inv (createCmd db u id ch endT msg rec) := by
  unfold createCmd
  apply inv_commit
  have hF1 : (ensureCached (spawnFresh db u id rec endT) u).live
      = LiveTask.mk db.nextTask u id rec endT :: db.live := by
    rw [ensure_live]; rfl
  have hF2 : (ensureCached (spawnFresh db u id rec endT) u).nextTask
      = db.nextTask + 1 := by
    rw [ensure_nextTask]; rfl
  have hF3 : ∃ mX, (ensureCached (spawnFresh db u id rec endT) u).cache u = some mX := by
    cases hc : db.cache u with
    | some m =>
      exact ⟨m, by rw [ensure_of_cached (show (spawnFresh db u id rec endT).cache u = some m from hc)]; exact hc⟩
    | none =>
      refine ⟨db.persisted u, ?_⟩
      unfold ensureCached
      rw [show (spawnFresh db u id rec endT).cache u = none from hc]
      simp [setU, spawnFresh]
  have hF4 : ∀ x ∈ db.live,
      (ensureCached (spawnFresh db u id rec endT) u).timerAt x.user x.timer
        = db.timerAt x.user x.timer
      ∨ db.timerAt x.user x.timer = none := by
    intro x hx
    cases hc : db.cache u with
    | some m =>
      left
      rw [ensure_of_cached (show (spawnFresh db u id rec endT).cache u = some m from hc)]
      rfl
    | none =>
      by_cases hu : x.user = u
      · right
        rw [hu]
        simp [Db.timerAt, hc]
      · left
        unfold ensureCached
        rw [show (spawnFresh db u id rec endT).cache u = none from hc]
        simp [Db.timerAt, setU, hu, spawnFresh]
  obtain ⟨mX, hXc⟩ := hF3
  have hXt : (ensureCached (spawnFresh db u id rec endT) u).timerAt u id = mX id := by
    unfold Db.timerAt
    rw [hXc]
  refine ⟨?_, ?_, ?_⟩
  · intro x hx
    rw [setLive_live] at hx
    have hxl := mem_of_mem_abortOpt hx
    rw [hF1] at hxl
    rcases List.mem_cons.mp hxl with hx1 | hx2
    · subst hx1
      refine ⟨{ Timer.running id u ch endT msg with recur := rec, task := some db.nextTask },
        ?_, rfl, rfl⟩
      rw [timerAt_setLive, timerAt_setTimer_self hXc]
    · obtain ⟨t3, ht3, hr, hk⟩ := hInv.1 x hx2
      rcases hF4 x hx2 with heq | hnone
      · by_cases hkey : x.user = u ∧ x.timer = id
        · exfalso
          have hOldEq : ((ensureCached (spawnFresh db u id rec endT) u).timerAt u id).bind
              Timer.task = some x.handle := by
            rw [hkey.1, hkey.2] at heq ht3
            rw [heq, ht3]
            exact hk
          rw [hOldEq] at hx
          exact handle_ne_of_mem_abort hx rfl
        · refine ⟨t3, ?_, hr, hk⟩
          rw [timerAt_setLive, timerAt_setTimer_ne _ hkey, heq]
          exact ht3
      · rw [hnone] at ht3
        exact absurd ht3 (by simp)
  · rw [setLive_live]
    have hsub : ((abortOpt (ensureCached (spawnFresh db u id rec endT) u).live
        (((ensureCached (spawnFresh db u id rec endT) u).timerAt u id).bind Timer.task)).map
          LiveTask.handle).Sublist
        (((ensureCached (spawnFresh db u id rec endT) u).live).map LiveTask.handle) :=
      (abortOpt_sublist _ _).map LiveTask.handle
    refine hsub.nodup ?_
    rw [hF1, List.map_cons]
    refine List.Nodup.cons ?_ hInv.2.1
    intro hmem
    obtain ⟨x, hx, hxh⟩ := List.mem_map.mp hmem
    have h2 := hInv.2.2 x hx
    have hxh2 : x.handle = db.nextTask := hxh
    omega
  · intro x hx
    rw [setLive_live] at hx
    have hxl := mem_of_mem_abortOpt hx
    rw [hF1] at hxl
    rw [setLive_nextTask, setTimer_nextTask, hF2]
    rcases List.mem_cons.mp hxl with hx1 | hx2
    · subst hx1
      show db.nextTask < db.nextTask + 1
      omega
    · have := hInv.2.2 x hx2
      omega

theorem length_le_one_handles {l : List LiveTask}
    (hnd : (l.map LiveTask.handle).Nodup)
    (heq : ∀ x1 ∈ l, ∀ x2 ∈ l, x1.handle = x2.handle) : l.length ≤ 1 := by
  rcases l with _ | ⟨x1, l2⟩
  · simp
  rcases l2 with _ | ⟨x2, rest⟩
  · simp
  exfalso
  have h12 := heq x1 (by simp) x2 (by simp)
  rw [List.map_cons, List.map_cons] at hnd
  exact (List.nodup_cons.mp hnd).1 (by rw [h12]; exact List.mem_cons_self _ _)

theorem waitCount_le_one {db : Db} (hInv : Inv db) (u : UserId) (tid : String) :
    waitCount db u tid ≤ 1 := by
  unfold waitCount
  apply length_le_one_handles
  · exact ((List.filter_sublist _).map LiveTask.handle).nodup hInv.2.1
  · intro x1 h1 x2 h2
    have h1m := List.mem_filter.mp h1
    have h2m := List.mem_filter.mp h2
    have h1k := of_decide_eq_true h1m.2
    have h2k := of_decide_eq_true h2m.2
    obtain ⟨t3, ht3, _, hk3⟩ := hInv.1 x1 h1m.1
    obtain ⟨t4, ht4, _, hk4⟩ := hInv.1 x2 h2m.1
    rw [h1k.1, h1k.2] at ht3
    rw [h2k.1, h2k.2] at ht4
    rw [ht3] at ht4
    have hEq : t3 = t4 := by injection ht4
    subst hEq
    rw [hk3] at hk4
    exact Option.some.inj hk4

theorem waitCount_eq_zero_of_none {db : Db} {u : UserId} {tid : String}
    (hInv : Inv db) (h : db.timerAt u tid = none) : waitCount db u tid = 0 := by
  unfold waitCount
  have hfil : db.live.filter (fun e => e.user = u ∧ e.timer = tid) = [] := by
    rw [List.filter_eq_nil_iff]
    intro x hx
    simpa using absent_clears_key hInv h x hx
  rw [hfil]
  rfl

theorem waitCount_eq_zero_of_paused {db : Db} {u : UserId} {tid : String}
    {t : Timer} {r : Time} (hInv : Inv db) (ht : db.timerAt u tid = some t)
    (hp : t.state = .paused r) : waitCount db u tid = 0 := by
  unfold waitCount
  have hfil : db.live.filter (fun e => e.user = u ∧ e.timer = tid) = [] := by
    rw [List.filter_eq_nil_iff]
    intro x hx
    simp only [decide_eq_true_eq]
    intro hpx
    obtain ⟨t3, ht3, hr3, _⟩ := hInv.1 x hx
    rw [hpx.1, hpx.2, ht] at ht3
    have hEq : t3 = t := by injection ht3.symm
    subst hEq
    rw [hp] at hr3
    simp [TimerState.isRunning] at hr3
  rw [hfil]
  rfl

theorem step_preserves_inv {db db' : Db} (hInv : Inv db) (hs : Step db db') :
    Inv db' := by
  cases hs with
  | create u id ch endT msg rec => exact inv_createCmd u id ch endT msg rec hInv
  | pause u tid now => exact inv_pauseCmd u tid now hInv
  | resume u tid now => exact inv_resumeCmd u tid now hInv
  | edit u tid now dd msg => exact inv_editCmd u tid now dd msg hInv
  | increment u tid dd => exact inv_incrementCmd u tid dd hInv
  | recurToggle u tid interval => exact inv_recurCmd u tid interval hInv
  | toggleSub author actor tid => exact inv_toggleShared author actor tid hInv
  | delete u tid => exact inv_deleteCmd u tid hInv
  | fireFail e he => exact inv_fireErrCmd e hInv
  | fireOneShot e he hr => exact inv_fireOneShotCmd e hInv
  | fireRecur e r now t he hr ht => exact inv_fireRecurCmd e r now hInv
  | restart => exact inv_restartCmd db
  | arm u tid => exact inv_createTask u tid hInv

theorem inv_dbFix : Inv dbFix := by
  refine ⟨?_, ?_, ?_⟩
  · intro e he
    have he2 : e = ⟨0, 1, "ab", none, 100⟩ := by simpa [dbFix] using he
    subst he2
    exact ⟨tFix, by decide, by decide, by decide⟩
  · simp [dbFix]
  · intro e he
    have he2 : e = ⟨0, 1, "ab", none, 100⟩ := by simpa [dbFix] using he
    subst he2
    decide

/-- Claim C8: setting a new duration on a running timer yields Running with
end time now + d, on a paused timer yields Paused with remaining d; on a
paused timer the re-arm call create_task is a no-op (no wait armed), and the
Resume command arms one. -/
theorem set_duration_spec (t : Timer) (now d e r : Time) (db : Db)
    (u : UserId) (tid : String) :
    (t.state = .running e → (t.set_new_duration now d).state = .running (now + d))
  ∧ (t.state = .paused r → (t.set_new_duration now d).state = .paused d)
  ∧ (db.timerAt u tid = some t → t.state = .paused r → db.createTask u tid = db)
  ∧ (db.timerAt u tid = some t → t.state = .paused r →
      LiveTask.mk db.nextTask u tid t.recur (now + r) ∈ (resumeCmd db u tid now).live) := by
  refine ⟨?_, ?_, ?_, ?_⟩
  · intro h; simp [Timer.set_new_duration, h]
  · intro h; simp [Timer.set_new_duration, h]
  · intro ht hs
    obtain ⟨m, hm, hmt⟩ := cache_of_timerAt ht
    exact createTask_paused hm hmt hs
  · intro ht hs
    obtain ⟨m, hm, hmt⟩ := cache_of_timerAt ht
    have he2 : ensureCached db u = db := ensure_of_cached hm
    have ht2 : (ensureCached db u).timerAt u tid = some t := by rw [he2]; exact ht
    unfold resumeCmd
    rw [he2, ht]
    rw [commit_live]
    have hresume : (t.resume now).state = .running (now + r) := by
      simp [Timer.resume, hs]
    have hYc : (((db.setTimer u tid (some (t.resume now))).setLive
        (abortOpt db.live t.task))).cache u
        = some (setT m tid (some (t.resume now))) :=
      cache_setTimer_self hm _ _
    have hYm : setT m tid (some (t.resume now)) tid = some (t.resume now) := by
      simp [setT]
    rw [createTask_live_running hYc hYm hresume]
    have hnt : (((db.setTimer u tid (some (t.resume now))).setLive
        (abortOpt db.live t.task))).nextTask = db.nextTask := by
      rw [setLive_nextTask, setTimer_nextTask]
    rw [hnt]
    exact List.mem_cons_self _ _

/-- Witness for set_duration_spec: the paused timer tPau gets duration 25,
arms nothing, and a Resume at time 10 arms a wait ending at 50; the running
timer tFix gets end time now + d. -/
theorem set_duration_spec_witness :
    tPau.state = .paused 40
  ∧ tFix.state = .running 100
  ∧ (tFix.set_new_duration 10 25).state = .running (10 + 25)
  ∧ (tPau.set_new_duration 10 25).state = .paused 25
  ∧ dbPau.timerAt 1 "ab" = some tPau
  ∧ dbPau.createTask 1 "ab" = dbPau
  ∧ LiveTask.mk dbPau.nextTask 1 "ab" tPau.recur (10 + 40)
      ∈ (resumeCmd dbPau 1 "ab" 10).live := by
  refine ⟨rfl, rfl, ?_, ?_, by decide, ?_, ?_⟩
  · exact (set_duration_spec tFix 10 25 100 0 dbPau 1 "ab").1 rfl
  · exact (set_duration_spec tPau 10 25 0 40 dbPau 1 "ab").2.1 rfl
  · exact (set_duration_spec tPau 10 25 0 40 dbPau 1 "ab").2.2.1 (by decide) rfl
  · exact (set_duration_spec tPau 10 25 0 40 dbPau 1 "ab").2.2.2 (by decide) rfl

/-- Claim C9: deleting an absent id returns the not-found result and leaves
the state exactly as the cache load left it (no commit, no map change, no
live change); deleting an existing timer removes its record from the cached
map and from the Store and cancels its live wait, so no wait task for that
id remains. -/
theorem delete_spec (db : Db) (u : UserId) (tid : String) (res : Option Timer)
    (hres : (ensureCached db u).timerAt u tid = res) :
    (deleteCmd db u tid).2 = res
  ∧ (res = none → (deleteCmd db u tid).1 = ensureCached db u)
  ∧ (∀ t, res = some t →
      (deleteCmd db u tid).1.timerAt u tid = none
    ∧ (deleteCmd db u tid).1.persisted u tid = none
    ∧ (Inv db → waitCount (deleteCmd db u tid).1 u tid = 0)) := by
  cases res with
  | none =>
    unfold deleteCmd
    rw [hres]
    exact ⟨rfl, fun _ => rfl, fun t h => by exact absurd h (by simp)⟩
  | some t =>
    obtain ⟨m, hm, hmt⟩ := cache_of_timerAt hres
    have hred : deleteCmd db u tid
        = ((commitUser ((ensureCached db u).setTimer u tid none) u).setLive
            (abortOpt (commitUser ((ensureCached db u).setTimer u tid none) u).live t.task),
           some t) := by
      unfold deleteCmd; rw [hres]
    refine ⟨by rw [hred], by intro h; exact absurd h (by simp), ?_⟩
    intro t2 ht2
    have hEq : t2 = t := by injection ht2.symm
    subst hEq
    refine ⟨?_, ?_, ?_⟩
    · rw [hred, timerAt_setLive, commit_timerAt,
        ensure_of_cached (cache_setTimer_self hm _ _), timerAt_setTimer_self hm]
    · rw [hred, setLive_persisted, commit_persisted_self (cache_setTimer_self hm _ _)]
      simp [stripMap, setT]
    · intro hInv
      rw [hred]
      unfold waitCount
      rw [setLive_live, commit_live, setTimer_live, ensure_live]
      have hnil : ∀ x ∈ abortOpt db.live t2.task, ¬(x.user = u ∧ x.timer = tid) := by
        intro x hx hpx
        have hxl : x ∈ db.live := mem_of_mem_abortOpt hx
        obtain ⟨t3, ht3, _, htask3⟩ := hInv.1 x hxl
        rw [hpx.1, hpx.2] at ht3
        cases hc : db.cache u with
        | none => simp [Db.timerAt, hc] at ht3
        | some m0 =>
          have hdbm : db.timerAt u tid = some t2 := by
            have he3 : ensureCached db u = db := ensure_of_cached hc
            rw [he3] at hres; exact hres
          rw [hdbm] at ht3
          have hEq3 : t2 = t3 := by injection ht3
          subst hEq3
          cases htk : t2.task with
          | none => rw [htk] at htask3; exact absurd htask3 (by simp)
          | some h =>
            rw [htk] at hx
            rw [htk] at htask3
            have hne2 : x.handle ≠ h := handle_ne_of_mem_abort hx
            have hh : x.handle = h := by injection htask3.symm
            exact hne2 hh
      have hfil : (abortOpt db.live t2.task).filter
          (fun x => x.user = u ∧ x.timer = tid) = [] := by
        rw [List.filter_eq_nil_iff]
        intro x hx
        simpa using hnil x hx
      rw [hfil]
      rfl

/-- Witness for delete_spec: deleting the existing timer tFix from dbFix
returns it, removes it from cache and Store, and leaves no live wait. -/
theorem delete_spec_witness :
    (ensureCached dbFix 1).timerAt 1 "ab" = some tFix
  ∧ Inv dbFix
  ∧ (deleteCmd dbFix 1 "ab").2 = some tFix
  ∧ (deleteCmd dbFix 1 "ab").1.timerAt 1 "ab" = none
  ∧ (deleteCmd dbFix 1 "ab").1.persisted 1 "ab" = none
  ∧ waitCount (deleteCmd dbFix 1 "ab").1 1 "ab" = 0 := by
  have hres : (ensureCached dbFix 1).timerAt 1 "ab" = some tFix := by decide
  refine ⟨hres, inv_dbFix, (delete_spec dbFix 1 "ab" _ hres).1, ?_, ?_, ?_⟩
  · exact ((delete_spec dbFix 1 "ab" _ hres).2.2 tFix rfl).1
  · exact ((delete_spec dbFix 1 "ab" _ hres).2.2 tFix rfl).2.1
  · exact ((delete_spec dbFix 1 "ab" _ hres).2.2 tFix rfl).2.2 inv_dbFix

/-- Claim C10: Increment adds the duration to the in-memory timer state and
re-arms the wait, but never commits: the persisted side of the Store is
unchanged, so a restart replays the timer from its pre-increment record. -/
theorem increment_no_commit (db : Db) (u : UserId) (tid : String)
    (d : Time) (t : Timer) (e : Time)
    (ht : (ensureCached db u).timerAt u tid = some t) :
    ((incrementCmd db u tid d).timerAt u tid).map Timer.state
      = some (t.addDur d).state
  ∧ (incrementCmd db u tid d).persisted = db.persisted
  ∧ (restartCmd (incrementCmd db u tid d)).timerAt u tid
      = (restartCmd db).timerAt u tid
  ∧ (t.state = .running e →
      LiveTask.mk db.nextTask u tid t.recur (e + d)
        ∈ (incrementCmd db u tid d).live) := by
  obtain ⟨m, hm, hmt⟩ := cache_of_timerAt ht
  have hred : incrementCmd db u tid d
      = ((ensureCached db u).setTimer u tid (some (t.addDur d))).createTask u tid := by
    unfold incrementCmd; rw [ht]
  have hYc : ((ensureCached db u).setTimer u tid (some (t.addDur d))).cache u
      = some (setT m tid (some (t.addDur d))) := cache_setTimer_self hm _ _
  have hYm : setT m tid (some (t.addDur d)) tid = some (t.addDur d) := by
    simp [setT]
  have hp : (incrementCmd db u tid d).persisted = db.persisted := by
    rw [hred, createTask_persisted, setTimer_persisted, ensure_persisted]
  refine ⟨?_, hp, ?_, ?_⟩
  · rw [hred]
    obtain ⟨o, ho⟩ := timerAt_createTask_self hYc hYm
    rw [ho]
    rfl
  · simp only [restartCmd, Db.timerAt, hp]
  · intro hrun
    rw [hred]
    have hrun2 : (t.addDur d).state = .running (e + d) := by
      simp [Timer.addDur, hrun]
    rw [createTask_live_running hYc hYm hrun2]
    have hnt : ((ensureCached db u).setTimer u tid (some (t.addDur d))).nextTask
        = db.nextTask := by
      rw [setTimer_nextTask, ensure_nextTask]
    rw [hnt]
    exact List.mem_cons_self _ _

/-- Witness for increment_no_commit: adding 7 to tFix in dbFix. -/
theorem increment_no_commit_witness :
    (ensureCached dbFix 1).timerAt 1 "ab" = some tFix
  ∧ tFix.state = .running 100
  ∧ (incrementCmd dbFix 1 "ab" 7).persisted = dbFix.persisted
  ∧ ((incrementCmd dbFix 1 "ab" 7).timerAt 1 "ab").map Timer.state
      = some (tFix.addDur 7).state
  ∧ LiveTask.mk dbFix.nextTask 1 "ab" tFix.recur (100 + 7)
      ∈ (incrementCmd dbFix 1 "ab" 7).live := by
  have ht : (ensureCached dbFix 1).timerAt 1 "ab" = some tFix := by decide
  refine ⟨ht, rfl, ?_, ?_, ?_⟩
  · exact (increment_no_commit dbFix 1 "ab" 7 tFix 100 ht).2.1
  · exact (increment_no_commit dbFix 1 "ab" 7 tFix 100 ht).1
  · exact (increment_no_commit dbFix 1 "ab" 7 tFix 100 ht).2.2.2 rfl

/-- Witness for create_insert_spec at a fresh id and an unrelated id. -/
theorem create_insert_spec_witness :
    ("zz" : String) ≠ "cd"
  ∧ (createCmd dbFix 1 "cd" 9 200 "new" none).timerAt 1 "cd"
      = some { Timer.running "cd" 1 9 200 "new" with recur := none, task := some dbFix.nextTask }
  ∧ (createCmd dbFix 1 "cd" 9 200 "new" none).timerAt 1 "zz"
      = (ensureCached dbFix 1).timerAt 1 "zz" :=
  ⟨by decide,
   (create_insert_spec dbFix 1 "cd" 9 200 "new" none "zz" (by decide)).1,
   (create_insert_spec dbFix 1 "cd" 9 200 "new" none "zz" (by decide)).2⟩

/-- Claim C4: every step of the system (create, pause, resume, edit,
increment, recurrence toggle, subscription toggle, delete, the three fire
outcomes, restart and replay arming) preserves the supervision invariant,
under which every timer id of every owner has at most one live wait task,
and exactly zero when the timer does not exist or is paused. Re-arming
always aborts the previous task before spawning (Timer::create_task,
timer.rs lines 234 to 237) and pausing aborts without spawning
(Timer::pause, timer.rs lines 113 to 115). -/
theorem one_wait_per_timer (db db' : Db) (hInv : Inv db) (hStep : Step db db') :
    Inv db'
  ∧ (∀ u tid, waitCount db' u tid ≤ 1)
  ∧ (∀ u tid, db'.timerAt u tid = none → waitCount db' u tid = 0)
  ∧ (∀ u tid t r, db'.timerAt u tid = some t → t.state = .paused r →
      waitCount db' u tid = 0) := by
  have h2 := step_preserves_inv hInv hStep
  exact ⟨h2, fun u tid => waitCount_le_one h2 u tid,
    fun u tid h => waitCount_eq_zero_of_none h2 h,
    fun u tid t r h hp => waitCount_eq_zero_of_paused h2 h hp⟩

/-- Witness for one_wait_per_timer: pausing the one running timer of dbFix
is a step after which its wait count is zero. -/
theorem one_wait_per_timer_witness :
    Inv dbFix
  ∧ Inv (pauseCmd dbFix 1 "ab" 20)
  ∧ waitCount (pauseCmd dbFix 1 "ab" 20) 1 "ab" = 0 := by
  refine ⟨inv_dbFix, ?_, ?_⟩
  · exact (one_wait_per_timer dbFix _ inv_dbFix (Step.pause dbFix 1 "ab" 20)).1
  · exact (one_wait_per_timer dbFix _ inv_dbFix (Step.pause dbFix 1 "ab" 20)).2.2.2
      1 "ab" (tFix.pause 20) (100 - 20) (by decide) (by decide)

end Calcbot
